import Mathlib

/-!
Verification development for the Atakama SDK rule engine
(`atakama/rule_engine.py`).

The Python module is shallowly embedded: the request model, the rule
combinators (`RuleSet`, `RuleTree`), the identifier generator
(`RuleIdGenerator`), and the top-level `RuleEngine` are translated to
executable Lean definitions.  Python dictionaries loaded from the policy
yaml are modelled as insertion-ordered association lists over a JSON-like
value type `JVal`; Python `None` is `Option.none`; an evaluator raising an
`Exception` is the `Verdict.exn` outcome.  The `md5` hex digest and the
plugin registry live outside the translated sources and are abstracted as
explicit parameters (see the doc comments on `inject_rule_id` and
`Registry`).
-/

/-- Request types, from the `RequestType` enum (rule_engine.py lines 22-29). -/
inductive RequestType where
  | decrypt
  | search
  | create_profile
  | activate_location
  | create_location
  | rename_file
  | secure_export
deriving DecidableEq, Repr

/-- String value of each enum member, as in the Python source. -/
def RequestType.value : RequestType → String
  | .decrypt => "decrypt"
  | .search => "search"
  | .create_profile => "create_profile"
  | .activate_location => "activate_location"
  | .create_location => "create_location"
  | .rename_file => "rename"
  | .secure_export => "secure_export"

/-- Inverse of `RequestType.value`: the Python constructor `RequestType(s)`,
which raises `ValueError` (here: `none`) on an unknown string. -/
def RequestType.ofValue (s : String) : Option RequestType :=
  if s = "decrypt" then some .decrypt
  else if s = "search" then some .search
  else if s = "create_profile" then some .create_profile
  else if s = "activate_location" then some .activate_location
  else if s = "create_location" then some .create_location
  else if s = "rename" then some .rename_file
  else if s = "secure_export" then some .secure_export
  else none

/-- ProfileInfo dataclass (lines 32-37).  Python `bytes` are a list of byte
values. -/
structure ProfileInfo where
  profile_id : List Nat
  profile_words : List String
deriving DecidableEq, Repr

/-- MetaInfo dataclass (lines 40-45). -/
structure MetaInfo where
  meta : String
  complete : Bool
deriving DecidableEq, Repr

/-- ApprovalRequest dataclass (lines 48-57). -/
structure ApprovalRequest where
  request_type : RequestType
  device_id : List Nat
  profile : ProfileInfo
  auth_meta : List MetaInfo
deriving DecidableEq, Repr

/-- JSON-like values: the payloads a yaml policy file can put in a rule
configuration entry (strings, integers, booleans, null, lists, nested
dicts).  Floats are not modelled; no claim involves them. -/
inductive JVal where
  | str (s : String)
  | num (n : Int)
  | bool (b : Bool)
  | null
  | arr (xs : List JVal)
  | obj (kvs : List (String × JVal))

/-- Rule Configuration Entry: a Python dict as an insertion-ordered
association list with string keys (Python dicts preserve insertion order
and have unique keys). -/
abbrev Entry := List (String × JVal)

/-- Dict lookup `d.get(key)`: first binding of the key, if any. -/
def entGet : Entry → String → Option JVal
  | [], _ => none
  | (k, v) :: rest, key => if k = key then some v else entGet rest key

/-- Dict assignment `d[key] = v`: replaces the value at an existing key in
place (keeping its position), otherwise appends the new binding. -/
def entSet : Entry → String → JVal → Entry
  | [], key, v => [(key, v)]
  | (k, w) :: rest, key, v =>
    if k = key then (k, v) :: rest else (k, w) :: entSet rest key v

/-- Dict removal `d.pop(key)`: drops the binding of the key, keeping the
order of the remaining bindings. -/
def entErase : Entry → String → Entry
  | [], _ => []
  | (k, w) :: rest, key => if k = key then rest else (k, w) :: entErase rest key

/-- Python truthiness of a `JVal`: empty string, zero, `False`, `None`, and
empty containers are falsy. -/
def JVal.truthy : JVal → Bool
  | .str s => s ≠ ""
  | .num n => n ≠ 0
  | .bool b => b
  | .null => false
  | .arr xs => !xs.isEmpty
  | .obj kvs => !kvs.isEmpty

/-- Truthiness of `d.get(key)`: a missing key yields `None`, which is falsy. -/
def truthyOpt : Option JVal → Bool
  | none => false
  | some v => v.truthy

/-- Membership test of a Python `str` among dict keys that may be arbitrary
values: a string compares equal only to an equal string. -/
def hasStrKey (s : String) : List JVal → Bool
  | [] => false
  | JVal.str t :: rest => s = t || hasStrKey s rest
  | _ :: rest => hasStrKey s rest

/-- Lowercase hex character for a value below 16, as Python emits in
unicode escapes. -/
def hexDigit (n : Nat) : Char := Nat.digitChar n

/-- Four-digit lowercase hex rendering used by the `\u` escapes of
`json.dumps` (ensure_ascii). -/
def hex4 (n : Nat) : String :=
  String.mk [hexDigit (n / 4096 % 16), hexDigit (n / 256 % 16),
             hexDigit (n / 16 % 16), hexDigit (n % 16)]

/-- Escape of one character inside a JSON string literal, following
CPython `json.dumps` with its default `ensure_ascii=True`: quote and
backslash escaped, the usual short escapes, `\uXXXX` for other control and
all non-ASCII characters, surrogate pairs above the BMP. -/
def escChar (c : Char) : String :=
  if c = Char.ofNat 34 then "\\\""
  else if c = Char.ofNat 92 then "\\\\"
  else if c = Char.ofNat 10 then "\\n"
  else if c = Char.ofNat 9 then "\\t"
  else if c = Char.ofNat 13 then "\\r"
  else if c = Char.ofNat 8 then "\\b"
  else if c = Char.ofNat 12 then "\\f"
  else if c.toNat < 32 then "\\u" ++ hex4 c.toNat
  else if c.toNat < 127 then String.singleton c
  else if c.toNat < 65536 then "\\u" ++ hex4 c.toNat
  else
    "\\u" ++ hex4 (55296 + (c.toNat - 65536) / 1024) ++
    "\\u" ++ hex4 (56320 + (c.toNat - 65536) % 1024)

/-- JSON string literal for a Lean string. -/
def jstr (s : String) : String :=
  "\"" ++ String.join (s.data.map escChar) ++ "\""

/-- Stable ascending insertion by key, matching Python `sorted` as used by
`json.dumps(..., sort_keys=True)`. -/
def insertByKey (kv : String × String) : List (String × String) → List (String × String)
  | [] => [kv]
  | kv2 :: rest =>
    if kv.1 < kv2.1 then kv :: kv2 :: rest else kv2 :: insertByKey kv rest

/-- Sort serialized object items by their key. -/
def sortItems : List (String × String) → List (String × String)
  | [] => []
  | kv :: rest => insertByKey kv (sortItems rest)

/-- Comma join with the compact item separator `separators=(",", ":")`. -/
def joinComma : List String → String
  | [] => ""
  | [x] => x
  | x :: y :: rest => x ++ "," ++ joinComma (y :: rest)

mutual

/-- Model of `json.dumps(v, sort_keys=True, separators=(",", ":"))`
(rule_engine.py line 144): compact separators, keys sorted at every level.
Sorting an object's items after serializing each one equals serializing in
sorted key order, because an item's text depends only on the item. -/
def dumpVal : JVal → String
  | .str s => jstr s
  | .num n => toString n
  | .bool b => cond b "true" "false"
  | .null => "null"
  | .arr xs => "[" ++ joinComma (dumpArr xs) ++ "]"
  | .obj kvs => "\x7b" ++ joinComma ((sortItems (dumpItems kvs)).map Prod.snd) ++ "\x7d"

/-- Serialization of the elements of a JSON array, in order. -/
def dumpArr : List JVal → List String
  | [] => []
  | x :: rest => dumpVal x :: dumpArr rest

/-- Serialization of the items of a JSON object: each item becomes its key
paired with its rendered text `"key":value`. -/
def dumpItems : List (String × JVal) → List (String × String)
  | [] => []
  | (k, v) :: rest => (k, jstr k ++ ":" ++ dumpVal v) :: dumpItems rest

end

/-- Canonical encoding of a rule configuration entry: `json.dumps` of the
dict with sorted keys and compact separators. -/
def dumps (ent : Entry) : String := dumpVal (JVal.obj ent)

/-- Outcome of one call to an evaluator's `approve_request`: a returned
value (`True`, `False`, or `None`), or a raised `Exception`. -/
inductive Verdict where
  | ok (res : Option Bool)
  | exn
deriving DecidableEq, Repr

/-- Modelled from the spec: the evaluator produced by the plugin registry
collaborator (`atakama.plugin_base`, which is not under src/).  Per the
spec, an evaluator stores its configuration map (Python `self.args`),
reports the stable name it was registered under (`name()`), and produces a
tri-state verdict for a request; state changes inside `approve_request`
are not observable at this layer, so the behavior is a pure function of
the request. -/
structure RulePlugin where
  name : String
  args : Entry
  approve_request : ApprovalRequest → Verdict

/-- Modelled from the spec: the plugin registry collaborator exposes
`lookup(name) -> evaluator-factory`; `RulePlugin.get_by_name` consults it.
A factory builds the evaluator's decision behavior from its configuration
dict; the registry yields `none` for an absent name (a hard construction
failure). -/
def Registry : Type := String → Option (Entry → ApprovalRequest → Verdict)

/-- Default body of `RulePlugin.check_quota` (rule_engine.py lines 90-97):
the method body is only a docstring, so an evaluator that does not
override it returns Python `None`. -/
def RulePlugin.check_quota_default : ProfileInfo → Option Bool :=
  fun _ => none

/-- Default body of `RulePlugin.clear_quota` (rule_engine.py lines 99-104):
the method body is only a docstring, so it reads and writes nothing and
returns `None`; on any evaluator-internal state (abstract type `σ`) it is
the identity. -/
def RulePlugin.clear_quota_default (σ : Type) : ProfileInfo → σ → σ :=
  fun _ s => s

/-- Factory `RulePlugin.from_dict` (lines 106-117): asserts a `rule` key is
present, pops it from the dict in place, and instantiates the named plugin
class on the remaining dict.  A missing `rule` key, a non-string plugin
name, or a name absent from the registry is a hard construction failure
(`none`).  The mutated dict (the entry minus its `rule` key) is returned
alongside the plugin because the caller's entry is mutated in place. -/
def RulePlugin.from_dict (reg : Registry) (data : Entry) : Option (RulePlugin × Entry) :=
  match entGet data "rule" with
  | some (JVal.str pname) =>
    match reg pname with
    | some fac =>
      some (⟨pname, entErase data "rule", fac (entErase data "rule")⟩, entErase data "rule")
    | none => none
  | _ => none

/-- Serialization `RulePlugin.to_dict` (lines 119-122): a copy of the args
dict with the plugin name re-added under `rule`. -/
def RulePlugin.to_dict (p : RulePlugin) : Entry :=
  entSet p.args "rule" (JVal.str p.name)

/-- State of `RuleIdGenerator` (lines 125-132): `seen` records every rule
id recorded so far, in order (the Python `defaultdict` counts per id, but
only key membership is ever read, so the multiset of recorded ids
suffices); `rule_seq` is the global sequence counter. -/
structure RuleIdGenerator where
  seen : List JVal
  rule_seq : Nat

/-- The fresh generator `RuleIdGenerator()`. -/
def RuleIdGenerator.init : RuleIdGenerator := ⟨[], 0⟩

/-- Translation of `RuleIdGenerator.inject_rule_id` (lines 134-151),
parameterized by the `hashlib.md5(...).hexdigest()` function `md5hex`,
which is outside the translated sources (its outputs are 32 lowercase hex
characters; theorems state the properties they need of it).  The sequence
counter is bumped first; an entry whose `rule_id` is missing or falsy gets
a fresh id: the digest of its canonical encoding, disambiguated with a
trailing `"." + str(seq)` when that digest was already recorded; the final
id is recorded in `seen`. -/
def inject_rule_id (md5hex : String → String) (g : RuleIdGenerator) (ent : Entry) :
    RuleIdGenerator × Entry :=
  let seq := g.rule_seq + 1
  match entGet ent "rule_id" with
  | some v =>
    if v.truthy then
      (⟨g.seen ++ [v], seq⟩, ent)
    else
      let d := md5hex (dumps ent)
      let rid := if hasStrKey d g.seen then d ++ "." ++ Nat.repr seq else d
      (⟨g.seen ++ [JVal.str rid], seq⟩, entSet ent "rule_id" (JVal.str rid))
  | none =>
    let d := md5hex (dumps ent)
    let rid := if hasStrKey d g.seen then d ++ "." ++ Nat.repr seq else d
    (⟨g.seen ++ [JVal.str rid], seq⟩, entSet ent "rule_id" (JVal.str rid))

/-- Identifier freshly assigned by `inject_rule_id`, when the entry lacks a
truthy `rule_id`: the bare digest if unseen, else digest plus current
sequence number. -/
def newId (md5hex : String → String) (g : RuleIdGenerator) (ent : Entry) : Option String :=
  if truthyOpt (entGet ent "rule_id") then none
  else
    let d := md5hex (dumps ent)
    some (if hasStrKey d g.seen then d ++ "." ++ Nat.repr (g.rule_seq + 1) else d)

/-- Identifier Assignor run over one load: `inject_rule_id` on each entry
in file order, threading the generator. -/
def injectAll (md5hex : String → String) (g : RuleIdGenerator) :
    List Entry → RuleIdGenerator × List Entry
  | [] => (g, [])
  | e :: rest =>
    let p := inject_rule_id md5hex g e
    let q := injectAll md5hex p.1 rest
    (q.1, p.2 :: q.2)

/-- Identifiers freshly assigned during one load, in order (entries that
kept a pre-existing truthy id contribute nothing). -/
def assignedIds (md5hex : String → String) (g : RuleIdGenerator) :
    List Entry → List String
  | [] => []
  | e :: rest =>
    match newId md5hex g e with
    | some i => i :: assignedIds md5hex (inject_rule_id md5hex g e).1 rest
    | none => assignedIds md5hex (inject_rule_id md5hex g e).1 rest

/-- Rule Group: `RuleSet` (lines 154-189) is a list of rule plugins. -/
abbrev RuleSet := List RulePlugin

/-- Translation of `RuleSet.approve_request` (lines 162-174): walk the
rules in order; a rule returning `True` lets the walk continue; `None` is
logged and, like `False`, makes the group return `False` at once; a raised
exception is caught (`except Exception`), logged, and makes the group
return `False` at once; an exhausted walk (including the empty group)
returns `True`. -/
def RuleSet.approve_request : RuleSet → ApprovalRequest → Bool
  | [], _ => true
  | rule :: rest, req =>
    match rule.approve_request req with
    | Verdict.ok (some true) => RuleSet.approve_request rest req
    | _ => false

/-- Instrumented form of `RuleSet.approve_request` that also returns the
rules actually invoked, in invocation order. -/
def RuleSet.approveTrace : RuleSet → ApprovalRequest → Bool × List RulePlugin
  | [], _ => (true, [])
  | rule :: rest, req =>
    match rule.approve_request req with
    | Verdict.ok (some true) =>
      ((RuleSet.approveTrace rest req).1, rule :: (RuleSet.approveTrace rest req).2)
    | _ => (false, [rule])

/-- Body of the `RuleSet.approve_request` loop with the `try/except`
removed: a raised exception propagates (`Except.error`) instead of being
caught. -/
def RuleSet.approveUncaught : RuleSet → ApprovalRequest → Except Unit Bool
  | [], _ => Except.ok true
  | rule :: rest, req =>
    match rule.approve_request req with
    | Verdict.ok (some true) => RuleSet.approveUncaught rest req
    | Verdict.ok _ => Except.ok false
    | Verdict.exn => Except.error ()

/-- Construction `RuleSet.from_list` (lines 176-183): inject a rule id
into each entry, then build its plugin; the mutated entries and the
threaded generator are returned with the group.  Any plugin construction
failure aborts the build (`none`). -/
def RuleSet.from_list (md5hex : String → String) (reg : Registry) (g : RuleIdGenerator) :
    List Entry → Option (RuleSet × List Entry × RuleIdGenerator)
  | [] => some ([], [], g)
  | ent :: rest =>
    let p := inject_rule_id md5hex g ent
    match RulePlugin.from_dict reg p.2 with
    | none => none
    | some (plug, ent2) =>
      match RuleSet.from_list md5hex reg p.1 rest with
      | none => none
      | some (plugs, ents, g2) => some (plug :: plugs, ent2 :: ents, g2)

/-- Serialization `RuleSet.to_list` (lines 185-189). -/
def RuleSet.to_list (rs : RuleSet) : List Entry :=
  rs.map RulePlugin.to_dict

/-- Rule Alternatives: `RuleTree` (lines 192-219) is a list of rule
groups. -/
abbrev RuleTree := List RuleSet

/-- Translation of `RuleTree.approve_request` (lines 199-205): walk the
groups in order and return `True` at the first group that approves;
return `False` when none does (including the empty tree). -/
def RuleTree.approve_request : RuleTree → ApprovalRequest → Bool
  | [], _ => false
  | rset :: rest, req =>
    if RuleSet.approve_request rset req then true
    else RuleTree.approve_request rest req

/-- Instrumented form of `RuleTree.approve_request` that also returns the
groups actually evaluated, in evaluation order. -/
def RuleTree.approveTrace : RuleTree → ApprovalRequest → Bool × List RuleSet
  | [], _ => (false, [])
  | rset :: rest, req =>
    if RuleSet.approve_request rset req then (true, [rset])
    else ((RuleTree.approveTrace rest req).1, rset :: (RuleTree.approveTrace rest req).2)

/-- Construction `RuleTree.from_list` (lines 207-213). -/
def RuleTree.from_list (md5hex : String → String) (reg : Registry) (g : RuleIdGenerator) :
    List (List Entry) → Option (RuleTree × List (List Entry) × RuleIdGenerator)
  | [] => some ([], [], g)
  | ruledata :: rest =>
    match RuleSet.from_list md5hex reg g ruledata with
    | none => none
    | some (rset, ents, g1) =>
      match RuleTree.from_list md5hex reg g1 rest with
      | none => none
      | some (rsets, entss, g2) => some (rset :: rsets, ents :: entss, g2)

/-- Serialization `RuleTree.to_list` (lines 215-219). -/
def RuleTree.to_list (rt : RuleTree) : List (List Entry) :=
  rt.map RuleSet.to_list

/-- The `RuleEngine` (lines 222-281): a mapping from request type to rule
tree, as an insertion-ordered association list (a Python dict). -/
structure RuleEngine where
  map : List (RequestType × RuleTree)

/-- Dict lookup `self.map.get(request.request_type, None)`. -/
def lookupTree : List (RequestType × RuleTree) → RequestType → Option RuleTree
  | [], _ => none
  | (rt, tree) :: rest, k => if rt = k then some tree else lookupTree rest k

/-- Translation of `RuleEngine.approve_request` (lines 233-237): return
`None` when no tree is configured for the request type, else the tree's
boolean result. -/
def RuleEngine.approve_request (e : RuleEngine) (request : ApprovalRequest) : Option Bool :=
  match lookupTree e.map request.request_type with
  | none => none
  | some tree => some (RuleTree.approve_request tree request)

/-- Item-wise body of `RuleEngine.from_dict` (lines 246-269): validate
each request-type key against the enum (an unknown key is a hard
construction failure), build its tree, and thread one generator across
the whole configuration in order. -/
def fromDictCore (md5hex : String → String) (reg : Registry) (g : RuleIdGenerator) :
    List (String × List (List Entry)) →
    Option (List (RequestType × RuleTree) × List (String × List (List Entry)) × RuleIdGenerator)
  | [] => some ([], [], g)
  | (rtype, treedef) :: rest =>
    match RequestType.ofValue rtype with
    | none => none
    | some rt =>
      match RuleTree.from_list md5hex reg g treedef with
      | none => none
      | some (tree, treedef2, g1) =>
        match fromDictCore md5hex reg g1 rest with
        | none => none
        | some (m, rest2, g2) => some ((rt, tree) :: m, (rtype, treedef2) :: rest2, g2)

/-- Translation of `RuleEngine.from_dict`: build from a configuration
mapping with a fresh `RuleIdGenerator`.  The mutated configuration (its
entries changed in place during the build) is returned with the engine. -/
def RuleEngine.from_dict (md5hex : String → String) (reg : Registry)
    (info : List (String × List (List Entry))) :
    Option (RuleEngine × List (String × List (List Entry))) :=
  match fromDictCore md5hex reg RuleIdGenerator.init info with
  | none => none
  | some (m, info2, _) => some (⟨m⟩, info2)

/-- Translation of `RuleEngine.to_dict` (lines 277-281). -/
def RuleEngine.to_dict (e : RuleEngine) : List (String × List (List Entry)) :=
  e.map.map (fun p => (p.1.value, RuleTree.to_list p.2))

lemma approveTrace_fst (rules : RuleSet) (req : ApprovalRequest) :
    (RuleSet.approveTrace rules req).1 = RuleSet.approve_request rules req := by
  induction rules with
  | nil => rfl
  | cons r rest ih =>
    cases hr : r.approve_request req with
    | ok res =>
      rcases res with _ | b
      · simp [RuleSet.approveTrace, RuleSet.approve_request, hr]
      · cases b
        · simp [RuleSet.approveTrace, RuleSet.approve_request, hr]
        · simp [RuleSet.approveTrace, RuleSet.approve_request, hr, ih]
    | exn => simp [RuleSet.approveTrace, RuleSet.approve_request, hr]

lemma approveTrace_all (rules : RuleSet) (req : ApprovalRequest)
    (h : ∀ r ∈ rules, r.approve_request req = Verdict.ok (some true)) :
    RuleSet.approveTrace rules req = (true, rules) := by
  induction rules with
  | nil => rfl
  | cons r rest ih =>
    have hr := h r (List.mem_cons_self r rest)
    have ih2 := ih (fun x hx => h x (List.mem_cons_of_mem r hx))
    simp [RuleSet.approveTrace, hr, ih2]

lemma approveTrace_firstFail (req : ApprovalRequest) :
    ∀ (rules : RuleSet) (i : Nat) (hi : i < rules.length),
    (∀ r ∈ rules.take i, r.approve_request req = Verdict.ok (some true)) →
    (rules.get ⟨i, hi⟩).approve_request req ≠ Verdict.ok (some true) →
    RuleSet.approveTrace rules req = (false, rules.take (i + 1)) := by
  intro rules
  induction rules with
  | nil => intro i hi; exact absurd hi (by simp)
  | cons r rest ih =>
    intro i hi hpre hfail
    cases i with
    | zero =>
      cases hv : r.approve_request req with
      | ok res =>
        rcases res with _ | b
        · simp [RuleSet.approveTrace, hv]
        · cases b
          · simp [RuleSet.approveTrace, hv]
          · exact absurd hv hfail
      | exn => simp [RuleSet.approveTrace, hv]
    | succ n =>
      have hr : r.approve_request req = Verdict.ok (some true) := hpre r (by simp)
      have ih2 := ih n (by simpa using Nat.lt_of_succ_lt_succ hi)
        (fun x hx => hpre x (by simp [hx])) hfail
      simp [RuleSet.approveTrace, hr, ih2]

lemma treeTrace_fst (tree : RuleTree) (req : ApprovalRequest) :
    (RuleTree.approveTrace tree req).1 = RuleTree.approve_request tree req := by
  induction tree with
  | nil => rfl
  | cons g rest ih =>
    by_cases hg : RuleSet.approve_request g req
    · simp [RuleTree.approveTrace, RuleTree.approve_request, hg]
    · simp [RuleTree.approveTrace, RuleTree.approve_request, hg, ih]

lemma treeTrace_allFalse (tree : RuleTree) (req : ApprovalRequest)
    (h : ∀ g ∈ tree, RuleSet.approve_request g req = false) :
    RuleTree.approveTrace tree req = (false, tree) := by
  induction tree with
  | nil => rfl
  | cons g rest ih =>
    have hg := h g (List.mem_cons_self g rest)
    have ih2 := ih (fun x hx => h x (List.mem_cons_of_mem g hx))
    simp [RuleTree.approveTrace, hg, ih2]

lemma treeTrace_firstTrue (req : ApprovalRequest) :
    ∀ (tree : RuleTree) (i : Nat) (hi : i < tree.length),
    (∀ g ∈ tree.take i, RuleSet.approve_request g req = false) →
    RuleSet.approve_request (tree.get ⟨i, hi⟩) req = true →
    RuleTree.approveTrace tree req = (true, tree.take (i + 1)) := by
  intro tree
  induction tree with
  | nil => intro i hi; exact absurd hi (by simp)
  | cons g rest ih =>
    intro i hi hpre hok
    cases i with
    | zero =>
      have hg : RuleSet.approve_request g req = true := hok
      simp [RuleTree.approveTrace, hg]
    | succ n =>
      have hg : RuleSet.approve_request g req = false := hpre g (by simp)
      have ih2 := ih n (by simpa using Nat.lt_of_succ_lt_succ hi)
        (fun x hx => hpre x (by simp [hx])) hok
      simp [RuleTree.approveTrace, hg, ih2]

/-- C1: `RuleSet.approve_request` (Rule Group AND) evaluates its member
evaluators strictly in configured order; at the first evaluator whose
`approve_request` returns `False` or `None` or raises an exception, it
stops immediately and returns `False` without invoking any later
evaluator (the invoked rules are exactly the first failing one and those
before it); if the group has no evaluators, or every evaluator returns
`True`, it returns `True` having invoked them all.  The instrumented
trace agrees with `RuleSet.approve_request` on the decision. -/
theorem ruleset_and_short_circuit (rules : RuleSet) (req : ApprovalRequest) :
    ((∀ r ∈ rules, r.approve_request req = Verdict.ok (some true)) →
      RuleSet.approveTrace rules req = (true, rules)) ∧
    (∀ i : Nat, ∀ hi : i < rules.length,
      (∀ r ∈ rules.take i, r.approve_request req = Verdict.ok (some true)) →
      (rules.get ⟨i, hi⟩).approve_request req ≠ Verdict.ok (some true) →
      RuleSet.approveTrace rules req = (false, rules.take (i + 1))) ∧
    (RuleSet.approveTrace rules req).1 = RuleSet.approve_request rules req :=
  ⟨approveTrace_all rules req,
   fun i hi => approveTrace_firstFail req rules i hi,
   approveTrace_fst rules req⟩

/-- Concrete evaluator approving every request. -/
def wPlugTrue : RulePlugin := ⟨"t", [], fun _ => Verdict.ok (some true)⟩

/-- Concrete evaluator denying every request. -/
def wPlugFalse : RulePlugin := ⟨"f", [], fun _ => Verdict.ok (some false)⟩

/-- Concrete evaluator returning `None` for every request. -/
def wPlugNone : RulePlugin := ⟨"n", [], fun _ => Verdict.ok none⟩

/-- Concrete evaluator raising an exception on every request. -/
def wPlugExn : RulePlugin := ⟨"e", [], fun _ => Verdict.exn⟩

/-- Concrete approval request used by the witnesses. -/
def wReq : ApprovalRequest :=
  ⟨RequestType.decrypt, [1, 2], ⟨[3, 4], ["word"]⟩, [⟨"/mnt/file", true⟩]⟩

theorem ruleset_and_short_circuit_witness :
    RuleSet.approveTrace [wPlugTrue, wPlugFalse, wPlugTrue] wReq =
      (false, [wPlugTrue, wPlugFalse]) :=
  (ruleset_and_short_circuit [wPlugTrue, wPlugFalse, wPlugTrue] wReq).2.1 1
    (by decide)
    (by decide)
    (by decide)

/-- C2: `RuleTree.approve_request` (Rule Alternatives OR) evaluates its
member rule groups strictly in configured order and returns `True` at the
first group whose `approve_request` returns `True`, without evaluating any
later group (the evaluated groups are exactly the first approving one and
those before it); it returns `False` when it has no groups or when every
group returns `False`, having evaluated them all.  The instrumented trace
agrees with `RuleTree.approve_request` on the decision. -/
theorem ruletree_or_short_circuit (tree : RuleTree) (req : ApprovalRequest) :
    ((∀ g ∈ tree, RuleSet.approve_request g req = false) →
      RuleTree.approveTrace tree req = (false, tree)) ∧
    (∀ i : Nat, ∀ hi : i < tree.length,
      (∀ g ∈ tree.take i, RuleSet.approve_request g req = false) →
      RuleSet.approve_request (tree.get ⟨i, hi⟩) req = true →
      RuleTree.approveTrace tree req = (true, tree.take (i + 1))) ∧
    (RuleTree.approveTrace tree req).1 = RuleTree.approve_request tree req :=
  ⟨treeTrace_allFalse tree req,
   fun i hi => treeTrace_firstTrue req tree i hi,
   treeTrace_fst tree req⟩

theorem ruletree_or_short_circuit_witness :
    RuleTree.approveTrace [[wPlugFalse], [wPlugTrue], [wPlugTrue]] wReq =
      (true, [[wPlugFalse], [wPlugTrue]]) :=
  (ruletree_or_short_circuit [[wPlugFalse], [wPlugTrue], [wPlugTrue]] wReq).2.1 1
    (by decide)
    (by decide)
    (by decide)

/-- C4: `RuleEngine.approve_request` returns `None` (indeterminate) for a
request whose type has no tree in the engine's mapping, and exactly the
configured tree's boolean result when a tree is present. -/
theorem engine_dispatch_tristate (e : RuleEngine) (request : ApprovalRequest) :
    (lookupTree e.map request.request_type = none →
      RuleEngine.approve_request e request = none) ∧
    (∀ tree : RuleTree, lookupTree e.map request.request_type = some tree →
      RuleEngine.approve_request e request = some (RuleTree.approve_request tree request)) := by
  constructor
  · intro h; simp [RuleEngine.approve_request, h]
  · intro tree h; simp [RuleEngine.approve_request, h]

/-- Concrete engine with a tree only for decrypt requests. -/
def wEngine : RuleEngine := ⟨[(RequestType.decrypt, [[wPlugTrue]])]⟩

/-- Concrete search request, whose type the concrete engine does not map. -/
def wReqSearch : ApprovalRequest :=
  ⟨RequestType.search, [1, 2], ⟨[3, 4], ["word"]⟩, [⟨"/mnt/file", true⟩]⟩

theorem engine_dispatch_tristate_witness :
    RuleEngine.approve_request wEngine wReqSearch = none ∧
    RuleEngine.approve_request wEngine wReq = some true :=
  ⟨(engine_dispatch_tristate wEngine wReqSearch).1 rfl,
   (engine_dispatch_tristate wEngine wReq).2 [[wPlugTrue]] rfl⟩

lemma ruleset_true_iff (g : RuleSet) (req : ApprovalRequest) :
    RuleSet.approve_request g req = true ↔
      ∀ r ∈ g, r.approve_request req = Verdict.ok (some true) := by
  induction g with
  | nil => simp [RuleSet.approve_request]
  | cons r rest ih =>
    cases hr : r.approve_request req with
    | ok res =>
      rcases res with _ | b
      · simp [RuleSet.approve_request, hr]
      · cases b
        · simp [RuleSet.approve_request, hr]
        · simp [RuleSet.approve_request, hr, ih]
    | exn => simp [RuleSet.approve_request, hr]

lemma ruleset_eq_uncaught (g : RuleSet) (req : ApprovalRequest) :
    RuleSet.approve_request g req =
      (match RuleSet.approveUncaught g req with
       | Except.ok b => b
       | Except.error _ => false) := by
  induction g with
  | nil => rfl
  | cons r rest ih =>
    cases hr : r.approve_request req with
    | ok res =>
      rcases res with _ | b
      · simp [RuleSet.approve_request, RuleSet.approveUncaught, hr]
      · cases b
        · simp [RuleSet.approve_request, RuleSet.approveUncaught, hr]
        · simp [RuleSet.approve_request, RuleSet.approveUncaught, hr, ih]
    | exn => simp [RuleSet.approve_request, RuleSet.approveUncaught, hr]

/-- C3: an exception raised by an evaluator is caught at the Rule Group
boundary and makes that group return `False` (the group's result is the
uncaught body's result with a propagating error turned into `False`, and
any group containing a raising member denies); evaluation of the later
groups of the same Rule Alternatives then continues exactly as it would
on the remaining tree; and `RuleEngine.approve_request` always returns
one of `True`, `False`, `None` — no exception escapes it. -/
theorem evaluator_fault_containment (g : RuleSet) (rest : RuleTree) (req : ApprovalRequest)
    (r : RulePlugin) (hmem : r ∈ g) (hexn : r.approve_request req = Verdict.exn) :
    RuleSet.approve_request g req = false ∧
    RuleTree.approveTrace (g :: rest) req =
      ((RuleTree.approveTrace rest req).1, g :: (RuleTree.approveTrace rest req).2) ∧
    (∀ (g2 : RuleSet) (req2 : ApprovalRequest),
      RuleSet.approve_request g2 req2 =
        (match RuleSet.approveUncaught g2 req2 with
         | Except.ok b => b
         | Except.error _ => false)) ∧
    (∀ (e : RuleEngine) (request : ApprovalRequest),
      RuleEngine.approve_request e request = none ∨
      RuleEngine.approve_request e request = some true ∨
      RuleEngine.approve_request e request = some false) := by
  have hg : RuleSet.approve_request g req = false := by
    cases hv : RuleSet.approve_request g req
    · rfl
    · have := (ruleset_true_iff g req).1 hv r hmem
      rw [this] at hexn
      exact absurd hexn (by simp)
  refine ⟨hg, ?_, fun g2 req2 => ruleset_eq_uncaught g2 req2, ?_⟩
  · simp [RuleTree.approveTrace, hg]
  · intro e request
    cases h : RuleEngine.approve_request e request with
    | none => exact Or.inl rfl
    | some b =>
      cases b
      · exact Or.inr (Or.inr rfl)
      · exact Or.inr (Or.inl rfl)

theorem evaluator_fault_containment_witness :
    RuleSet.approve_request [wPlugTrue, wPlugExn] wReq = false ∧
    RuleTree.approveTrace [[wPlugTrue, wPlugExn], [wPlugTrue]] wReq =
      (true, [[wPlugTrue, wPlugExn], [wPlugTrue]]) := by
  have h := evaluator_fault_containment [wPlugTrue, wPlugExn] [[wPlugTrue]] wReq wPlugExn
    (List.mem_cons_of_mem wPlugTrue (List.mem_cons_self wPlugExn [])) rfl
  exact ⟨h.1, h.2.1⟩

/-- Identifier freshly generated by `inject_rule_id` for an entry lacking a
truthy rule id: the content digest, disambiguated with the bumped global
sequence number when that digest was already recorded. -/
def freshId (md5hex : String → String) (g : RuleIdGenerator) (ent : Entry) : String :=
  if hasStrKey (md5hex (dumps ent)) g.seen then
    md5hex (dumps ent) ++ "." ++ Nat.repr (g.rule_seq + 1)
  else md5hex (dumps ent)

lemma inject_truthy (md5hex : String → String) (g : RuleIdGenerator) (ent : Entry)
    (v : JVal) (hget : entGet ent "rule_id" = some v) (htr : v.truthy = true) :
    inject_rule_id md5hex g ent = (⟨g.seen ++ [v], g.rule_seq + 1⟩, ent) := by
  simp [inject_rule_id, hget, htr]

lemma inject_falsy (md5hex : String → String) (g : RuleIdGenerator) (ent : Entry)
    (hf : truthyOpt (entGet ent "rule_id") = false) :
    inject_rule_id md5hex g ent =
      (⟨g.seen ++ [JVal.str (freshId md5hex g ent)], g.rule_seq + 1⟩,
       entSet ent "rule_id" (JVal.str (freshId md5hex g ent))) := by
  cases hv : entGet ent "rule_id" with
  | none => simp [inject_rule_id, hv, freshId]
  | some v =>
    have : v.truthy = false := by simpa [truthyOpt, hv] using hf
    simp [inject_rule_id, hv, this, freshId]

lemma newId_eq (md5hex : String → String) (g : RuleIdGenerator) (ent : Entry) :
    newId md5hex g ent =
      if truthyOpt (entGet ent "rule_id") then none else some (freshId md5hex g ent) := rfl

/-- Fixed digest function used by concrete witnesses: a constant 32-hex
string (the md5 digest of the empty string). -/
def wHash : String → String := fun _ => "d41d8cd98f00b204e9800998ecf8427e"

/-- Concrete entry carrying an empty-string (falsy) rule id. -/
def wEntEmptyId : Entry := [("rule", JVal.str "r"), ("rule_id", JVal.str "")]

/-- C6 counterexample: an entry that carries a `rule_id` key whose value is
the empty string is not left unmodified by `inject_rule_id` — its falsy
identifier is overwritten with a generated digest. -/
theorem inject_carried_key_counterexample :
    (inject_rule_id wHash RuleIdGenerator.init wEntEmptyId).2 ≠ wEntEmptyId := by
  intro h
  have h2 := congrArg (fun e => entGet e "rule_id") h
  simp [wEntEmptyId, inject_rule_id, RuleIdGenerator.init, entGet, entSet,
    JVal.truthy, hasStrKey, wHash] at h2

/-- C6 (amended): an entry that carries a truthy `rule_id` value when the
Identifier Assignor processes it is left unmodified — the identifier is
recorded and never overwritten. -/
theorem inject_truthy_rule_id_untouched (md5hex : String → String) (g : RuleIdGenerator)
    (ent : Entry) (v : JVal) (hget : entGet ent "rule_id" = some v) (htr : v.truthy = true) :
    inject_rule_id md5hex g ent = (⟨g.seen ++ [v], g.rule_seq + 1⟩, ent) :=
  inject_truthy md5hex g ent v hget htr

/-- Concrete entry carrying a truthy rule id. -/
def wEntKeep : Entry := [("rule", JVal.str "r"), ("rule_id", JVal.str "keep")]

theorem inject_truthy_rule_id_untouched_witness :
    inject_rule_id wHash RuleIdGenerator.init wEntKeep =
      (⟨[JVal.str "keep"], 1⟩, wEntKeep) :=
  inject_truthy_rule_id_untouched wHash RuleIdGenerator.init wEntKeep
    (JVal.str "keep") rfl (by decide)

/-- C10: an entry whose `rule_id` key is present but falsy (for example the
empty string) is treated as lacking an identifier, because presence is
tested by truthiness: `inject_rule_id` overwrites it with a freshly
generated content-digest identifier. -/
theorem falsy_rule_id_overwritten (md5hex : String → String) (g : RuleIdGenerator)
    (ent : Entry) (v : JVal) (hget : entGet ent "rule_id" = some v)
    (hfalsy : v.truthy = false) :
    (inject_rule_id md5hex g ent).2 =
      entSet ent "rule_id" (JVal.str (freshId md5hex g ent)) ∧
    newId md5hex g ent = some (freshId md5hex g ent) := by
  have hf : truthyOpt (entGet ent "rule_id") = false := by simp [truthyOpt, hget, hfalsy]
  constructor
  · rw [inject_falsy md5hex g ent hf]
  · rw [newId_eq, hf]
    simp

theorem falsy_rule_id_overwritten_witness :
    (inject_rule_id wHash RuleIdGenerator.init wEntEmptyId).2 =
      entSet wEntEmptyId "rule_id" (JVal.str "d41d8cd98f00b204e9800998ecf8427e") ∧
    newId wHash RuleIdGenerator.init wEntEmptyId =
      some "d41d8cd98f00b204e9800998ecf8427e" :=
  falsy_rule_id_overwritten wHash RuleIdGenerator.init wEntEmptyId
    (JVal.str "") rfl (by decide)

/-- C8 counterexample: the default `check_quota` body is only a docstring,
so an evaluator that does not override it returns Python `None` for every
profile — not `True`. -/
theorem check_quota_default_counterexample :
    RulePlugin.check_quota_default ⟨[3, 4], ["word"]⟩ = none ∧
    (none : Option Bool) ≠ some true :=
  ⟨rfl, by decide⟩

/-- C8 (amended): an evaluator that does not override the quota hooks has
`check_quota` return `None` (a falsy value, not `True`) for every profile,
and `clear_quota` is a no-op: on any evaluator-internal state it is the
identity. -/
theorem quota_hook_defaults :
    (∀ p : ProfileInfo, RulePlugin.check_quota_default p = none) ∧
    (∀ (σ : Type) (p : ProfileInfo) (s : σ), RulePlugin.clear_quota_default σ p s = s) :=
  ⟨fun _ => rfl, fun _ _ _ => rfl⟩

lemma fromDict_inv (reg : Registry) (d : Entry) (p : RulePlugin) (e2 : Entry)
    (h : RulePlugin.from_dict reg d = some (p, e2)) :
    ∃ (s : String) (fac : Entry → ApprovalRequest → Verdict),
      entGet d "rule" = some (JVal.str s) ∧ reg s = some fac ∧
      p = ⟨s, entErase d "rule", fac (entErase d "rule")⟩ ∧ e2 = entErase d "rule" := by
  cases hv : entGet d "rule" with
  | none => simp [RulePlugin.from_dict, hv] at h
  | some v =>
    cases v with
    | str s =>
      cases hr : reg s with
      | none => simp [RulePlugin.from_dict, hv, hr] at h
      | some fac =>
        simp only [RulePlugin.from_dict, hv, hr, Option.some.injEq, Prod.mk.injEq] at h
        exact ⟨s, fac, rfl, hr, h.1.symm, h.2.symm⟩
    | num n => simp [RulePlugin.from_dict, hv] at h
    | bool b => simp [RulePlugin.from_dict, hv] at h
    | null => simp [RulePlugin.from_dict, hv] at h
    | arr xs => simp [RulePlugin.from_dict, hv] at h
    | obj kvs => simp [RulePlugin.from_dict, hv] at h

lemma inject_snd_truthyOpt (md5hex : String → String) (g : RuleIdGenerator) (ent : Entry)
    (ht : truthyOpt (entGet ent "rule_id") = true) :
    (inject_rule_id md5hex g ent).2 = ent := by
  cases hv : entGet ent "rule_id" with
  | none => rw [hv] at ht; exact absurd ht (by simp [truthyOpt])
  | some v =>
    have htr : v.truthy = true := by simpa [truthyOpt, hv] using ht
    rw [inject_truthy md5hex g ent v hv htr]

/-- Relation between a configuration entry before and after the engine
build: the build changes an entry only by injecting a fresh `rule_id` when
the carried one is missing or falsy, and by popping the consumed `rule`
key when the plugin is constructed. -/
def entryMutated (e o : Entry) : Prop :=
  (truthyOpt (entGet e "rule_id") = true ∧ o = entErase e "rule") ∨
  (truthyOpt (entGet e "rule_id") = false ∧
    ∃ rid : String, o = entErase (entSet e "rule_id" (JVal.str rid)) "rule")

lemma fromList_mutated (md5hex : String → String) (reg : Registry) :
    ∀ (ents : List Entry) (g : RuleIdGenerator) (rs : RuleSet)
      (ents2 : List Entry) (g2 : RuleIdGenerator),
    RuleSet.from_list md5hex reg g ents = some (rs, ents2, g2) →
    List.Forall₂ entryMutated ents ents2 := by
  intro ents
  induction ents with
  | nil =>
    intro g rs ents2 g2 h
    simp [RuleSet.from_list] at h
    rw [h.2.1]
    exact List.Forall₂.nil
  | cons e rest ih =>
    intro g rs ents2 g2 h
    rw [RuleSet.from_list] at h
    cases hfd : RulePlugin.from_dict reg (inject_rule_id md5hex g e).2 with
    | none => rw [hfd] at h; exact absurd h (by simp)
    | some pe =>
      obtain ⟨plug, ent2⟩ := pe
      rw [hfd] at h
      cases hrec : RuleSet.from_list md5hex reg (inject_rule_id md5hex g e).1 rest with
      | none => rw [hrec] at h; exact absurd h (by simp)
      | some tr =>
        obtain ⟨plugs, ents3, g3⟩ := tr
        rw [hrec] at h
        simp only [Option.some.injEq, Prod.mk.injEq] at h
        obtain ⟨-, h2, -⟩ := h
        rw [← h2]
        refine List.Forall₂.cons ?_ (ih _ _ _ _ hrec)
        obtain ⟨s, fac, -, -, -, he2⟩ := fromDict_inv reg _ plug ent2 hfd
        cases ht : truthyOpt (entGet e "rule_id") with
        | true =>
          left
          refine ⟨ht, ?_⟩
          rw [he2, inject_snd_truthyOpt md5hex g e ht]
        | false =>
          right
          refine ⟨ht, freshId md5hex g e, ?_⟩
          rw [he2, inject_falsy md5hex g e ht]

lemma treeFromList_mutated (md5hex : String → String) (reg : Registry) :
    ∀ (td : List (List Entry)) (g : RuleIdGenerator) (rt : RuleTree)
      (td2 : List (List Entry)) (g2 : RuleIdGenerator),
    RuleTree.from_list md5hex reg g td = some (rt, td2, g2) →
    List.Forall₂ (List.Forall₂ entryMutated) td td2 := by
  intro td
  induction td with
  | nil =>
    intro g rt td2 g2 h
    simp [RuleTree.from_list] at h
    rw [h.2.1]
    exact List.Forall₂.nil
  | cons ents rest ih =>
    intro g rt td2 g2 h
    rw [RuleTree.from_list] at h
    cases hs : RuleSet.from_list md5hex reg g ents with
    | none => simp [hs] at h
    | some sr =>
      obtain ⟨rset, ents2, g1⟩ := sr
      simp only [hs] at h
      cases hrec : RuleTree.from_list md5hex reg g1 rest with
      | none => simp [hrec] at h
      | some tr =>
        obtain ⟨rsets, entss, g3⟩ := tr
        simp only [hrec, Option.some.injEq, Prod.mk.injEq] at h
        obtain ⟨-, h2, -⟩ := h
        rw [← h2]
        exact List.Forall₂.cons (fromList_mutated md5hex reg ents g rset ents2 g1 hs)
          (ih _ _ _ _ hrec)

lemma fromDictCore_mutated (md5hex : String → String) (reg : Registry) :
    ∀ (info : List (String × List (List Entry))) (g : RuleIdGenerator)
      (m : List (RequestType × RuleTree)) (info2 : List (String × List (List Entry)))
      (g2 : RuleIdGenerator),
    fromDictCore md5hex reg g info = some (m, info2, g2) →
    List.Forall₂
      (fun a b => a.1 = b.1 ∧ List.Forall₂ (List.Forall₂ entryMutated) a.2 b.2)
      info info2 := by
  intro info
  induction info with
  | nil =>
    intro g m info2 g2 h
    simp [fromDictCore] at h
    rw [h.2.1]
    exact List.Forall₂.nil
  | cons item rest ih =>
    intro g m info2 g2 h
    obtain ⟨rtype, treedef⟩ := item
    rw [fromDictCore] at h
    cases hv : RequestType.ofValue rtype with
    | none => simp [hv] at h
    | some rt =>
      simp only [hv] at h
      cases htr : RuleTree.from_list md5hex reg g treedef with
      | none => simp [htr] at h
      | some tr =>
        obtain ⟨tree, treedef2, g1⟩ := tr
        simp only [htr] at h
        cases hrec : fromDictCore md5hex reg g1 rest with
        | none => simp [hrec] at h
        | some rr =>
          obtain ⟨m2, rest2, g3⟩ := rr
          simp only [hrec, Option.some.injEq, Prod.mk.injEq] at h
          obtain ⟨-, h2, -⟩ := h
          rw [← h2]
          exact List.Forall₂.cons
            ⟨rfl, treeFromList_mutated md5hex reg treedef g tree treedef2 g1 htr⟩
            (ih _ _ _ _ hrec)

/-- Concrete configuration entry with a rule name and one parameter. -/
def wEntRule : Entry := [("rule", JVal.str "r"), ("param", JVal.num 1)]

/-- Concrete plugin registry: exactly one evaluator, registered as `r`,
approving every request. -/
def wReg : Registry :=
  fun s => if s = "r" then some (fun _ _ => Verdict.ok (some true)) else none

/-- C7 counterexample: building an engine from a configuration holding the
entry `[rule: r, param: 1]` leaves that entry without its `rule` key (the
key is popped during plugin construction), so construction removes a key
other than `rule_id` — the entry is not mutated only by injecting a
missing `rule_id`. -/
theorem build_pops_rule_key_counterexample :
    (RuleEngine.from_dict wHash wReg [("decrypt", [[wEntRule]])]).map Prod.snd =
      some [("decrypt",
        [[[("param", JVal.num 1),
           ("rule_id", JVal.str "d41d8cd98f00b204e9800998ecf8427e")]]])] ∧
    entGet wEntRule "rule" = some (JVal.str "r") :=
  ⟨rfl, rfl⟩

/-- C7 (amended): building an engine from a configuration mutates each
entry mapping in place only by injecting a fresh `rule_id` when the
carried one is missing or falsy and by removing the consumed `rule` key;
every other key keeps its value and position. -/
theorem build_mutation_shape (md5hex : String → String) (reg : Registry)
    (info : List (String × List (List Entry))) (eng : RuleEngine)
    (info2 : List (String × List (List Entry)))
    (h : RuleEngine.from_dict md5hex reg info = some (eng, info2)) :
    List.Forall₂
      (fun a b => a.1 = b.1 ∧ List.Forall₂ (List.Forall₂ entryMutated) a.2 b.2)
      info info2 := by
  rw [RuleEngine.from_dict] at h
  cases hc : fromDictCore md5hex reg RuleIdGenerator.init info with
  | none => rw [hc] at h; exact absurd h (by simp)
  | some r =>
    obtain ⟨m, info3, g2⟩ := r
    rw [hc] at h
    simp only [Option.some.injEq, Prod.mk.injEq] at h
    rw [← h.2]
    exact fromDictCore_mutated md5hex reg info RuleIdGenerator.init m info3 g2 hc

theorem build_mutation_shape_witness :
    List.Forall₂
      (fun a b => a.1 = b.1 ∧ List.Forall₂ (List.Forall₂ entryMutated) a.2 b.2)
      [("decrypt", [[wEntRule]])]
      [("decrypt",
        [[[("param", JVal.num 1),
           ("rule_id", JVal.str "d41d8cd98f00b204e9800998ecf8427e")]]])] :=
  build_mutation_shape wHash wReg _ _ _ rfl

/-- Absence of the dot character from a string: the decimal digest and the
decimal sequence number never contain the `.` separator. -/
def noDot (s : String) : Prop := (Char.ofNat 46) ∉ s.data

lemma toDigitsCore_eq_digits : ∀ (n : Nat), 0 < n → ∀ (f : Nat) (acc : List Char), n < f →
    Nat.toDigitsCore 10 f n acc = ((Nat.digits 10 n).map Nat.digitChar).reverse ++ acc := by
  intro n
  induction n using Nat.strong_induction_on with
  | _ n ih =>
    intro hn f acc hf
    cases f with
    | zero => omega
    | succ f2 =>
      rw [Nat.toDigitsCore]
      rw [Nat.digits_def' (by norm_num : (1:Nat) < 10) hn]
      by_cases hdiv : n / 10 = 0
      · simp [hdiv]
      · have h1 : 0 < n / 10 := Nat.pos_of_ne_zero hdiv
        have h2 : n / 10 < n := Nat.div_lt_self hn (by norm_num)
        have h3 : n / 10 < f2 := by omega
        simp only [hdiv, if_false]
        rw [ih (n / 10) h2 h1 f2 _ h3]
        simp

lemma repr_eq_digits (n : Nat) (hn : 0 < n) :
    Nat.repr n = (((Nat.digits 10 n).map Nat.digitChar).reverse).asString := by
  unfold Nat.repr Nat.toDigits
  rw [toDigitsCore_eq_digits n hn (n + 1) [] (Nat.lt_succ_self n)]
  simp [List.asString]

lemma digitChar_inj10 : ∀ d1 < 10, ∀ d2 < 10, Nat.digitChar d1 = Nat.digitChar d2 → d1 = d2 := by
  decide

lemma digitChar_ne_dot : ∀ d < 10, Nat.digitChar d ≠ Char.ofNat 46 := by decide

lemma noDot_repr (n : Nat) : noDot (Nat.repr n) := by
  rcases Nat.eq_zero_or_pos n with h0 | hp
  · rw [h0]; unfold noDot; decide
  · rw [repr_eq_digits n hp]
    intro hmem
    simp only [List.asString, List.mem_reverse, List.mem_map] at hmem
    obtain ⟨d, hd, hdc⟩ := hmem
    exact digitChar_ne_dot d (Nat.digits_lt_base (by norm_num) hd) hdc

lemma map_digitChar_inj : ∀ (l1 l2 : List Nat), (∀ d ∈ l1, d < 10) → (∀ d ∈ l2, d < 10) →
    l1.map Nat.digitChar = l2.map Nat.digitChar → l1 = l2 := by
  intro l1
  induction l1 with
  | nil => intro l2 _ _ h; cases l2 with
    | nil => rfl
    | cons b t => simp at h
  | cons a t ih =>
    intro l2 h1 h2 h
    cases l2 with
    | nil => simp at h
    | cons b t2 =>
      simp only [List.map_cons, List.cons.injEq] at h
      have ha : a = b := digitChar_inj10 a (h1 a (by simp)) b (h2 b (by simp)) h.1
      have ht : t = t2 := ih t2 (fun d hd => h1 d (by simp [hd]))
        (fun d hd => h2 d (by simp [hd])) h.2
      rw [ha, ht]

lemma asString_inj (l1 l2 : List Char) (h : l1.asString = l2.asString) : l1 = l2 := by
  have := congrArg String.data h
  simpa [List.asString] using this

lemma repr_pos_ne_zero_str (n : Nat) (hn : 0 < n) : Nat.repr n ≠ "0" := by
  intro h
  have hd := asString_inj _ ([Char.ofNat 48]) (by
    rw [← repr_eq_digits n hn]; exact h)
  have : (Nat.digits 10 n).map Nat.digitChar = [Char.ofNat 48] := by
    have := congrArg List.reverse hd
    simpa using this
  cases hdig : Nat.digits 10 n with
  | nil =>
    rw [hdig] at this
    simp at this
  | cons d rest =>
    rw [hdig] at this
    simp only [List.map_cons, List.cons.injEq, List.map_eq_nil_iff] at this
    have hd10 : d < 10 := Nat.digits_lt_base (by norm_num) (by rw [hdig]; simp)
    have hd0 : d = 0 := digitChar_inj10 d hd10 0 (by norm_num) (by simpa using this.1)
    have hdigs : Nat.digits 10 n = [0] := by rw [hdig, this.2, hd0]
    have hzero : n = 0 := by
      have h1 := Nat.ofDigits_digits 10 n
      rw [hdigs] at h1
      simpa [Nat.ofDigits] using h1.symm
    omega

lemma nat_repr_inj (m n : Nat) (h : Nat.repr m = Nat.repr n) : m = n := by
  rcases Nat.eq_zero_or_pos m with hm | hm
  · rcases Nat.eq_zero_or_pos n with hn | hn
    · rw [hm, hn]
    · subst hm; exact absurd h.symm (repr_pos_ne_zero_str n hn)
  · rcases Nat.eq_zero_or_pos n with hn | hn
    · subst hn; exact absurd h (repr_pos_ne_zero_str m hm)
    · rw [repr_eq_digits m hm, repr_eq_digits n hn] at h
      have hl := asString_inj _ _ h
      have hrev := congrArg List.reverse hl
      simp only [List.reverse_reverse] at hrev
      have hdig := map_digitChar_inj (Nat.digits 10 m) (Nat.digits 10 n)
        (fun d hd => Nat.digits_lt_base (by norm_num) hd)
        (fun d hd => Nat.digits_lt_base (by norm_num) hd) hrev
      calc m = Nat.ofDigits 10 (Nat.digits 10 m) := (Nat.ofDigits_digits 10 m).symm
        _ = Nat.ofDigits 10 (Nat.digits 10 n) := by rw [hdig]
        _ = n := Nat.ofDigits_digits 10 n

lemma data_dot : ("." : String).data = [Char.ofNat 46] := rfl

lemma dot_mem_append (a b : String) : (Char.ofNat 46) ∈ (a ++ "." ++ b).data := by
  simp [String.data_append, data_dot]

lemma append_dot_ne_of_noDot (i : String) (hi : noDot i) (x y : String)
    (h : i = x ++ "." ++ y) : False := by
  rw [h] at hi
  exact hi (dot_mem_append x y)

lemma chars_append_dot_inj :
    ∀ (l1 l2 x y : List Char), (Char.ofNat 46) ∉ l1 → (Char.ofNat 46) ∉ l2 →
    l1 ++ (Char.ofNat 46) :: x = l2 ++ (Char.ofNat 46) :: y → l1 = l2 ∧ x = y := by
  intro l1
  induction l1 with
  | nil =>
    intro l2 x y _ h2 he
    cases l2 with
    | nil => simpa using he
    | cons b t =>
      simp only [List.nil_append, List.cons_append, List.cons.injEq] at he
      exact absurd (by rw [he.1]; simp : (Char.ofNat 46) ∈ b :: t) h2
  | cons a t ih =>
    intro l2 x y h1 h2 he
    cases l2 with
    | nil =>
      simp only [List.nil_append, List.cons_append, List.cons.injEq] at he
      exact absurd (by rw [← he.1]; simp : (Char.ofNat 46) ∈ a :: t) h1
    | cons b t2 =>
      simp only [List.cons_append, List.cons.injEq] at he
      have := ih t2 x y (fun hm => h1 (by simp [hm])) (fun hm => h2 (by simp [hm])) he.2
      exact ⟨by rw [he.1, this.1], this.2⟩

lemma str_append_dot_inj (h1 h2 s1 s2 : String) (n1 : noDot h1) (n2 : noDot h2)
    (he : h1 ++ "." ++ s1 = h2 ++ "." ++ s2) : h1 = h2 ∧ s1 = s2 := by
  have hd := congrArg String.data he
  simp only [String.data_append, data_dot, List.append_assoc, List.singleton_append] at hd
  have := chars_append_dot_inj h1.data h2.data s1.data s2.data n1 n2 hd
  exact ⟨String.ext this.1, String.ext this.2⟩

lemma hasStrKey_append (s : String) (l1 l2 : List JVal) :
    hasStrKey s (l1 ++ l2) = (hasStrKey s l1 || hasStrKey s l2) := by
  induction l1 with
  | nil => simp [hasStrKey]
  | cons v rest ih =>
    cases v with
    | str t => simp [hasStrKey, ih, Bool.or_assoc]
    | num n => simpa [hasStrKey] using ih
    | bool b => simpa [hasStrKey] using ih
    | null => simpa [hasStrKey] using ih
    | arr xs => simpa [hasStrKey] using ih
    | obj kvs => simpa [hasStrKey] using ih

lemma newId_some_inv (md5hex : String → String) (g : RuleIdGenerator) (e : Entry) (i : String)
    (h : newId md5hex g e = some i) :
    truthyOpt (entGet e "rule_id") = false ∧ i = freshId md5hex g e := by
  rw [newId_eq] at h
  cases ht : truthyOpt (entGet e "rule_id") with
  | false => rw [ht] at h; simp at h; exact ⟨rfl, h.symm⟩
  | true => rw [ht] at h; simp at h

lemma inject_fst_of_newId_some (md5hex : String → String) (g : RuleIdGenerator) (e : Entry)
    (i : String) (h : newId md5hex g e = some i) :
    (inject_rule_id md5hex g e).1 = ⟨g.seen ++ [JVal.str i], g.rule_seq + 1⟩ := by
  obtain ⟨ht, hi⟩ := newId_some_inv md5hex g e i h
  rw [inject_falsy md5hex g e ht, hi]

lemma inject_fst_seq (md5hex : String → String) (g : RuleIdGenerator) (e : Entry) :
    (inject_rule_id md5hex g e).1.rule_seq = g.rule_seq + 1 := by
  cases ht : truthyOpt (entGet e "rule_id") with
  | false => rw [inject_falsy md5hex g e ht]
  | true =>
    cases hv : entGet e "rule_id" with
    | none => rw [hv] at ht; simp [truthyOpt] at ht
    | some v =>
      rw [inject_truthy md5hex g e v hv (by simpa [truthyOpt, hv] using ht)]

lemma inject_seen_append (md5hex : String → String) (g : RuleIdGenerator) (e : Entry) :
    ∃ rec : JVal, (inject_rule_id md5hex g e).1.seen = g.seen ++ [rec] := by
  cases ht : truthyOpt (entGet e "rule_id") with
  | false =>
    rw [inject_falsy md5hex g e ht]
    exact ⟨JVal.str (freshId md5hex g e), rfl⟩
  | true =>
    cases hv : entGet e "rule_id" with
    | none => rw [hv] at ht; simp [truthyOpt] at ht
    | some v =>
      rw [inject_truthy md5hex g e v hv (by simpa [truthyOpt, hv] using ht)]
      exact ⟨v, rfl⟩

lemma inject_seen_mono (md5hex : String → String) (g : RuleIdGenerator) (e : Entry)
    (s : String) (h : hasStrKey s g.seen = true) :
    hasStrKey s (inject_rule_id md5hex g e).1.seen = true := by
  obtain ⟨rec, hr⟩ := inject_seen_append md5hex g e
  rw [hr, hasStrKey_append, h, Bool.true_or]

lemma freshId_spec (md5hex : String → String) (g : RuleIdGenerator) (e : Entry) :
    (hasStrKey (md5hex (dumps e)) g.seen = false ∧ freshId md5hex g e = md5hex (dumps e)) ∨
    (hasStrKey (md5hex (dumps e)) g.seen = true ∧
      freshId md5hex g e = md5hex (dumps e) ++ "." ++ Nat.repr (g.rule_seq + 1)) := by
  unfold freshId
  cases h : hasStrKey (md5hex (dumps e)) g.seen with
  | false => left; simp
  | true => right; simp

lemma bare_id_not_reassigned (md5hex : String → String) (hmd : ∀ s, noDot (md5hex s)) :
    ∀ (ents : List Entry) (g : RuleIdGenerator) (i : String),
    noDot i → hasStrKey i g.seen = true → i ∉ assignedIds md5hex g ents := by
  intro ents
  induction ents with
  | nil => intro g i _ _; simp [assignedIds]
  | cons e rest ih =>
    intro g i hnd hseen
    cases hn : newId md5hex g e with
    | none =>
      simp only [assignedIds, hn]
      exact ih _ i hnd (inject_seen_mono md5hex g e i hseen)
    | some jnew =>
      simp only [assignedIds, hn, List.mem_cons, not_or]
      refine ⟨?_, ih _ i hnd (inject_seen_mono md5hex g e i hseen)⟩
      obtain ⟨ht, hj⟩ := newId_some_inv md5hex g e jnew hn
      rcases freshId_spec md5hex g e with ⟨hun, hf⟩ | ⟨hse, hf⟩
      · intro hij
        rw [hij, hj, hf] at hseen
        rw [hseen] at hun
        exact absurd hun (by decide)
      · intro hij
        exact append_dot_ne_of_noDot i hnd _ _ (by rw [hij, hj, hf])

lemma stale_disamb_not_reassigned (md5hex : String → String) (hmd : ∀ s, noDot (md5hex s)) :
    ∀ (ents : List Entry) (g : RuleIdGenerator) (x : String) (k : Nat),
    noDot x → k ≤ g.rule_seq → (x ++ "." ++ Nat.repr k) ∉ assignedIds md5hex g ents := by
  intro ents
  induction ents with
  | nil => intro g x k _ _; simp [assignedIds]
  | cons e rest ih =>
    intro g x k hx hk
    cases hn : newId md5hex g e with
    | none =>
      simp only [assignedIds, hn]
      exact ih _ x k hx (by rw [inject_fst_seq]; omega)
    | some jnew =>
      simp only [assignedIds, hn, List.mem_cons, not_or]
      refine ⟨?_, ih _ x k hx (by rw [inject_fst_seq]; omega)⟩
      obtain ⟨ht, hj⟩ := newId_some_inv md5hex g e jnew hn
      rcases freshId_spec md5hex g e with ⟨hun, hf⟩ | ⟨hse, hf⟩
      · intro hij
        have hnj : noDot jnew := by rw [hj, hf]; exact hmd _
        exact append_dot_ne_of_noDot jnew hnj x (Nat.repr k) hij.symm
      · intro hij
        have hsplit := str_append_dot_inj x (md5hex (dumps e)) (Nat.repr k)
          (Nat.repr (g.rule_seq + 1)) hx (hmd _) (by rw [hij, hj, hf])
        have hkk := nat_repr_inj k (g.rule_seq + 1) hsplit.2
        omega

lemma assignedIds_nodup (md5hex : String → String) (hmd : ∀ s, noDot (md5hex s)) :
    ∀ (ents : List Entry) (g : RuleIdGenerator), (assignedIds md5hex g ents).Nodup := by
  intro ents
  induction ents with
  | nil => intro g; simp [assignedIds]
  | cons e rest ih =>
    intro g
    cases hn : newId md5hex g e with
    | none => simp only [assignedIds, hn]; exact ih _
    | some jnew =>
      simp only [assignedIds, hn]
      refine List.nodup_cons.mpr ⟨?_, ih _⟩
      obtain ⟨ht, hj⟩ := newId_some_inv md5hex g e jnew hn
      have hfst := inject_fst_of_newId_some md5hex g e jnew hn
      rcases freshId_spec md5hex g e with ⟨hun, hf⟩ | ⟨hse, hf⟩
      · apply bare_id_not_reassigned md5hex hmd rest (inject_rule_id md5hex g e).1 jnew
        · rw [hj, hf]; exact hmd _
        · rw [hfst, hasStrKey_append]
          simp [hasStrKey]
      · have hjd : jnew = md5hex (dumps e) ++ "." ++ Nat.repr (g.rule_seq + 1) := by
          rw [hj, hf]
        rw [hjd]
        exact stale_disamb_not_reassigned md5hex hmd rest (inject_rule_id md5hex g e).1
          (md5hex (dumps e)) (g.rule_seq + 1) (hmd _) (by rw [inject_fst_seq])

/-- C5: for an entry lacking a (truthy) rule id, the Identifier Assignor
assigns the hex digest of the content hash of the entry's canonical
encoding (`dumps`: keys sorted, compact separators); if that digest was
already recorded earlier in the same load it instead assigns the digest
with the bumped global sequence number appended; two structurally
identical entries processed in one load therefore receive the bare digest
and the digest plus sequence number respectively; and, provided digests
never contain the `.` separator (md5 hex digests never do), all assigned
identifiers within one load are pairwise distinct. -/
theorem identifier_assignment (md5hex : String → String)
    (hmd : ∀ s, noDot (md5hex s)) :
    (∀ (g : RuleIdGenerator) (ent : Entry),
      truthyOpt (entGet ent "rule_id") = false →
      hasStrKey (md5hex (dumps ent)) g.seen = false →
      inject_rule_id md5hex g ent =
        (⟨g.seen ++ [JVal.str (md5hex (dumps ent))], g.rule_seq + 1⟩,
         entSet ent "rule_id" (JVal.str (md5hex (dumps ent))))) ∧
    (∀ (g : RuleIdGenerator) (ent : Entry),
      truthyOpt (entGet ent "rule_id") = false →
      hasStrKey (md5hex (dumps ent)) g.seen = true →
      inject_rule_id md5hex g ent =
        (⟨g.seen ++ [JVal.str (md5hex (dumps ent) ++ "." ++ Nat.repr (g.rule_seq + 1))],
          g.rule_seq + 1⟩,
         entSet ent "rule_id"
           (JVal.str (md5hex (dumps ent) ++ "." ++ Nat.repr (g.rule_seq + 1))))) ∧
    (∀ ent : Entry,
      truthyOpt (entGet ent "rule_id") = false →
      (injectAll md5hex RuleIdGenerator.init [ent, ent]).2 =
        [entSet ent "rule_id" (JVal.str (md5hex (dumps ent))),
         entSet ent "rule_id" (JVal.str (md5hex (dumps ent) ++ "." ++ Nat.repr 2))]) ∧
    (∀ (g : RuleIdGenerator) (ents : List Entry), (assignedIds md5hex g ents).Nodup) := by
  have hbare : ∀ (g : RuleIdGenerator) (ent : Entry),
      truthyOpt (entGet ent "rule_id") = false →
      hasStrKey (md5hex (dumps ent)) g.seen = false →
      inject_rule_id md5hex g ent =
        (⟨g.seen ++ [JVal.str (md5hex (dumps ent))], g.rule_seq + 1⟩,
         entSet ent "rule_id" (JVal.str (md5hex (dumps ent)))) := by
    intro g ent ht hun
    have hf : freshId md5hex g ent = md5hex (dumps ent) := by
      unfold freshId; rw [hun]; simp
    rw [inject_falsy md5hex g ent ht, hf]
  have hseen : ∀ (g : RuleIdGenerator) (ent : Entry),
      truthyOpt (entGet ent "rule_id") = false →
      hasStrKey (md5hex (dumps ent)) g.seen = true →
      inject_rule_id md5hex g ent =
        (⟨g.seen ++ [JVal.str (md5hex (dumps ent) ++ "." ++ Nat.repr (g.rule_seq + 1))],
          g.rule_seq + 1⟩,
         entSet ent "rule_id"
           (JVal.str (md5hex (dumps ent) ++ "." ++ Nat.repr (g.rule_seq + 1)))) := by
    intro g ent ht hsk
    have hf : freshId md5hex g ent =
        md5hex (dumps ent) ++ "." ++ Nat.repr (g.rule_seq + 1) := by
      unfold freshId; rw [hsk]; simp
    rw [inject_falsy md5hex g ent ht, hf]
  refine ⟨hbare, hseen, ?_, fun g ents => assignedIds_nodup md5hex hmd ents g⟩
  intro ent ht
  have h1 := hbare RuleIdGenerator.init ent ht (by simp [RuleIdGenerator.init, hasStrKey])
  have h2 := hseen ⟨[JVal.str (md5hex (dumps ent))], 1⟩ ent ht (by simp [hasStrKey])
  simp only [injectAll, h1]
  have h3 : (⟨RuleIdGenerator.init.seen ++ [JVal.str (md5hex (dumps ent))],
      RuleIdGenerator.init.rule_seq + 1⟩ : RuleIdGenerator) =
      ⟨[JVal.str (md5hex (dumps ent))], 1⟩ := by
    simp [RuleIdGenerator.init]
  rw [h3, h2]

/-- Concrete entry with no rule id at all. -/
def wEntNoId : Entry := [("rule", JVal.str "r")]

theorem identifier_assignment_witness :
    (injectAll wHash RuleIdGenerator.init [wEntNoId, wEntNoId]).2 =
      [[("rule", JVal.str "r"),
        ("rule_id", JVal.str "d41d8cd98f00b204e9800998ecf8427e")],
       [("rule", JVal.str "r"),
        ("rule_id", JVal.str "d41d8cd98f00b204e9800998ecf8427e.2")]] :=
  (identifier_assignment wHash
    (fun s => by
      show (Char.ofNat 46) ∉ ("d41d8cd98f00b204e9800998ecf8427e" : String).data
      decide)).2.2.1 wEntNoId (by decide)

lemma entGet_entSet_same (d : Entry) (k : String) (v : JVal) :
    entGet (entSet d k v) k = some v := by
  induction d with
  | nil => simp [entSet, entGet]
  | cons kv rest ih =>
    obtain ⟨k1, w⟩ := kv
    by_cases h : k1 = k
    · simp [entSet, entGet, h]
    · simp [entSet, entGet, h, ih]

lemma entGet_entSet_ne (d : Entry) (k : String) (v : JVal) (k2 : String) (h : k ≠ k2) :
    entGet (entSet d k v) k2 = entGet d k2 := by
  induction d with
  | nil => simp [entSet, entGet, h]
  | cons kv rest ih =>
    obtain ⟨k1, w⟩ := kv
    by_cases h1 : k1 = k
    · subst h1; simp [entSet, entGet, h]
    · simp [entSet, entGet, h1, ih]

lemma entGet_entErase_ne (d : Entry) (k k2 : String) (h : k ≠ k2) :
    entGet (entErase d k) k2 = entGet d k2 := by
  induction d with
  | nil => simp [entErase, entGet]
  | cons kv rest ih =>
    obtain ⟨k1, w⟩ := kv
    by_cases h1 : k1 = k
    · subst h1; simp [entErase, entGet, h]
    · simp [entErase, entGet, h1, ih]

lemma entGet_eq_none_iff (d : Entry) (k : String) :
    entGet d k = none ↔ k ∉ d.map Prod.fst := by
  induction d with
  | nil => simp [entGet]
  | cons kv rest ih =>
    obtain ⟨k1, w⟩ := kv
    by_cases h : k1 = k
    · subst h; simp [entGet]
    · rw [entGet]
      simp only [h, if_false, List.map_cons, List.mem_cons]
      rw [ih]
      constructor
      · intro hn hor
        rcases hor with h1 | h2
        · exact h h1.symm
        · exact hn h2
      · intro hn h2
        exact hn (Or.inr h2)

lemma entErase_entSet (d : Entry) (k : String) (v : JVal) (h : entGet d k = none) :
    entErase (entSet d k v) k = d := by
  induction d with
  | nil => simp [entSet, entErase]
  | cons kv rest ih =>
    obtain ⟨k1, w⟩ := kv
    by_cases h1 : k1 = k
    · subst h1; simp [entGet] at h
    · rw [entGet] at h
      simp only [h1, if_false] at h
      simp [entSet, entErase, h1, ih h]

lemma keys_entSet (d : Entry) (k : String) (v : JVal) :
    (entSet d k v).map Prod.fst =
      if k ∈ d.map Prod.fst then d.map Prod.fst else d.map Prod.fst ++ [k] := by
  induction d with
  | nil => simp [entSet]
  | cons kv rest ih =>
    obtain ⟨k1, w⟩ := kv
    by_cases h : k1 = k
    · subst h; simp [entSet]
    · rw [entSet]
      simp only [h, if_false, List.map_cons, ih, List.mem_cons]
      by_cases hm : k ∈ rest.map Prod.fst
      · rw [if_pos hm, if_pos (Or.inr hm)]
      · rw [if_neg hm,
          if_neg (fun hor => hor.elim (fun h1 => h h1.symm) (fun h2 => hm h2))]
        rfl

lemma entSet_keys_nodup (d : Entry) (k : String) (v : JVal)
    (h : (d.map Prod.fst).Nodup) : ((entSet d k v).map Prod.fst).Nodup := by
  rw [keys_entSet]
  by_cases hm : k ∈ d.map Prod.fst
  · simpa [hm]
  · simp only [hm, if_false]
    rw [List.nodup_append]
    exact ⟨h, List.nodup_singleton k, fun a ha hb => hm ((List.mem_singleton.mp hb) ▸ ha)⟩

lemma entGet_entErase_self (d : Entry) (k : String) (h : (d.map Prod.fst).Nodup) :
    entGet (entErase d k) k = none := by
  induction d with
  | nil => simp [entErase, entGet]
  | cons kv rest ih =>
    obtain ⟨k1, w⟩ := kv
    simp only [List.map_cons, List.nodup_cons] at h
    by_cases h1 : k1 = k
    · subst h1
      simp only [entErase, if_true]
      exact (entGet_eq_none_iff rest k1).2 h.1
    · simp [entErase, entGet, h1, ih h.2]

lemma append_dot_ne_empty (a b : String) : a ++ "." ++ b ≠ "" := by
  intro h
  have hm := dot_mem_append a b
  rw [h] at hm
  exact absurd hm (by decide)

lemma freshId_ne_empty (md5hex : String → String) (hne : ∀ s, md5hex s ≠ "")
    (g : RuleIdGenerator) (e : Entry) : freshId md5hex g e ≠ "" := by
  rcases freshId_spec md5hex g e with ⟨-, hf⟩ | ⟨-, hf⟩
  · rw [hf]; exact hne _
  · rw [hf]; exact append_dot_ne_empty _ _

lemma inject_out_rule_id_truthy (md5hex : String → String) (hne : ∀ s, md5hex s ≠ "")
    (g : RuleIdGenerator) (e : Entry) :
    truthyOpt (entGet (inject_rule_id md5hex g e).2 "rule_id") = true := by
  cases ht : truthyOpt (entGet e "rule_id") with
  | true => rw [inject_snd_truthyOpt md5hex g e ht]; exact ht
  | false =>
    rw [inject_falsy md5hex g e ht]
    simp only [entGet_entSet_same, truthyOpt, JVal.truthy]
    simpa using freshId_ne_empty md5hex hne g e

lemma inject_keys_nodup (md5hex : String → String) (g : RuleIdGenerator) (e : Entry)
    (h : (e.map Prod.fst).Nodup) :
    (((inject_rule_id md5hex g e).2).map Prod.fst).Nodup := by
  cases ht : truthyOpt (entGet e "rule_id") with
  | true => rw [inject_snd_truthyOpt md5hex g e ht]; exact h
  | false =>
    rw [inject_falsy md5hex g e ht]
    exact entSet_keys_nodup e "rule_id" (JVal.str (freshId md5hex g e)) h

/-- Property of an evaluator instance constructed during a build that makes
a serialize-then-rebuild reproduce it exactly: its stored args carry no
`rule` key (it was popped), they carry a truthy rule id (injected or
preserved), and its behavior is the one its registered factory yields on
its args. -/
def pluginRebuildable (reg : Registry) (p : RulePlugin) : Prop :=
  entGet p.args "rule" = none ∧
  truthyOpt (entGet p.args "rule_id") = true ∧
  ∃ fac, reg p.name = some fac ∧ p.approve_request = fac p.args

lemma built_plugin_rebuildable (md5hex : String → String) (reg : Registry)
    (hne : ∀ s, md5hex s ≠ "") (g : RuleIdGenerator) (e : Entry)
    (hWF : (e.map Prod.fst).Nodup) (p : RulePlugin) (e2 : Entry)
    (h : RulePlugin.from_dict reg (inject_rule_id md5hex g e).2 = some (p, e2)) :
    pluginRebuildable reg p := by
  obtain ⟨s, fac, hget, hreg, hp, -⟩ := fromDict_inv reg _ p e2 h
  rw [hp]
  refine ⟨?_, ?_, fac, hreg, rfl⟩
  · exact entGet_entErase_self _ _ (inject_keys_nodup md5hex g e hWF)
  · rw [entGet_entErase_ne _ _ _ (by decide)]
    exact inject_out_rule_id_truthy md5hex hne g e

lemma rebuild_inject (md5hex : String → String) (reg : Registry) (g2 : RuleIdGenerator)
    (p : RulePlugin) (hp : pluginRebuildable reg p) :
    (inject_rule_id md5hex g2 (RulePlugin.to_dict p)).2 = RulePlugin.to_dict p := by
  apply inject_snd_truthyOpt
  rw [RulePlugin.to_dict, entGet_entSet_ne _ _ _ _ (by decide)]
  exact hp.2.1

lemma rebuild_fromDict (reg : Registry) (p : RulePlugin) (hp : pluginRebuildable reg p) :
    RulePlugin.from_dict reg (RulePlugin.to_dict p) = some (p, p.args) := by
  obtain ⟨nm, args, ap⟩ := p
  obtain ⟨hrule, htr, fac, hreg, hap⟩ := hp
  have h1 : entGet (entSet args "rule" (JVal.str nm)) "rule" = some (JVal.str nm) :=
    entGet_entSet_same args "rule" (JVal.str nm)
  simp only [RulePlugin.to_dict]
  rw [RulePlugin.from_dict]
  have hap2 : ap = fac args := hap
  simp only [h1, hreg, entErase_entSet args "rule" (JVal.str nm) hrule, hap2]

lemma fromList_all_rebuildable (md5hex : String → String) (reg : Registry)
    (hne : ∀ s, md5hex s ≠ "") :
    ∀ (ents : List Entry) (g : RuleIdGenerator) (rs : RuleSet)
      (ents2 : List Entry) (gOut : RuleIdGenerator),
    (∀ e ∈ ents, ((e.map Prod.fst).Nodup : Prop)) →
    RuleSet.from_list md5hex reg g ents = some (rs, ents2, gOut) →
    ∀ p ∈ rs, pluginRebuildable reg p := by
  intro ents
  induction ents with
  | nil =>
    intro g rs ents2 gOut _ h p hp
    simp [RuleSet.from_list] at h
    rw [h.1] at hp
    simp at hp
  | cons e rest ih =>
    intro g rs ents2 gOut hWF h p hp
    rw [RuleSet.from_list] at h
    cases hfd : RulePlugin.from_dict reg (inject_rule_id md5hex g e).2 with
    | none => simp [hfd] at h
    | some pe =>
      obtain ⟨plug, ent2⟩ := pe
      simp only [hfd] at h
      cases hrec : RuleSet.from_list md5hex reg (inject_rule_id md5hex g e).1 rest with
      | none => simp [hrec] at h
      | some tr =>
        obtain ⟨plugs, ents3, g3⟩ := tr
        simp only [hrec, Option.some.injEq, Prod.mk.injEq] at h
        rw [← h.1] at hp
        rcases List.mem_cons.mp hp with hp1 | hp2
        · rw [hp1]
          exact built_plugin_rebuildable md5hex reg hne g e (hWF e (by simp)) plug ent2 hfd
        · exact ih _ _ _ _ (fun x hx => hWF x (by simp [hx])) hrec p hp2

lemma treeFromList_all_rebuildable (md5hex : String → String) (reg : Registry)
    (hne : ∀ s, md5hex s ≠ "") :
    ∀ (td : List (List Entry)) (g : RuleIdGenerator) (rt : RuleTree)
      (td2 : List (List Entry)) (gOut : RuleIdGenerator),
    (∀ ents ∈ td, ∀ e ∈ ents, ((e.map Prod.fst).Nodup : Prop)) →
    RuleTree.from_list md5hex reg g td = some (rt, td2, gOut) →
    ∀ rs ∈ rt, ∀ p ∈ rs, pluginRebuildable reg p := by
  intro td
  induction td with
  | nil =>
    intro g rt td2 gOut _ h rs hrs
    simp [RuleTree.from_list] at h
    rw [h.1] at hrs
    simp at hrs
  | cons ents rest ih =>
    intro g rt td2 gOut hWF h rs hrs
    rw [RuleTree.from_list] at h
    cases hs : RuleSet.from_list md5hex reg g ents with
    | none => simp [hs] at h
    | some sr =>
      obtain ⟨rset, ents2, g1⟩ := sr
      simp only [hs] at h
      cases hrec : RuleTree.from_list md5hex reg g1 rest with
      | none => simp [hrec] at h
      | some tr =>
        obtain ⟨rsets, entss, g3⟩ := tr
        simp only [hrec, Option.some.injEq, Prod.mk.injEq] at h
        rw [← h.1] at hrs
        rcases List.mem_cons.mp hrs with h1 | h2
        · rw [h1]
          exact fromList_all_rebuildable md5hex reg hne ents g rset ents2 g1
            (fun e he => hWF ents (by simp) e he) hs
        · exact ih _ _ _ _ (fun x hx e he => hWF x (by simp [hx]) e he) hrec rs h2

lemma fromDictCore_all_rebuildable (md5hex : String → String) (reg : Registry)
    (hne : ∀ s, md5hex s ≠ "") :
    ∀ (info : List (String × List (List Entry))) (g : RuleIdGenerator)
      (m : List (RequestType × RuleTree)) (info2 : List (String × List (List Entry)))
      (gOut : RuleIdGenerator),
    (∀ item ∈ info, ∀ ents ∈ item.2, ∀ e ∈ ents, ((e.map Prod.fst).Nodup : Prop)) →
    fromDictCore md5hex reg g info = some (m, info2, gOut) →
    ∀ item ∈ m, ∀ rs ∈ item.2, ∀ p ∈ rs, pluginRebuildable reg p := by
  intro info
  induction info with
  | nil =>
    intro g m info2 gOut _ h item hitem
    simp [fromDictCore] at h
    rw [h.1] at hitem
    simp at hitem
  | cons pr rest ih =>
    intro g m info2 gOut hWF h item hitem
    obtain ⟨rtype, treedef⟩ := pr
    rw [fromDictCore] at h
    cases hv : RequestType.ofValue rtype with
    | none => simp [hv] at h
    | some rt =>
      simp only [hv] at h
      cases htr : RuleTree.from_list md5hex reg g treedef with
      | none => simp [htr] at h
      | some tr =>
        obtain ⟨tree, treedef2, g1⟩ := tr
        simp only [htr] at h
        cases hrec : fromDictCore md5hex reg g1 rest with
        | none => simp [hrec] at h
        | some rr =>
          obtain ⟨m2, rest2, g3⟩ := rr
          simp only [hrec, Option.some.injEq, Prod.mk.injEq] at h
          rw [← h.1] at hitem
          rcases List.mem_cons.mp hitem with h1 | h2
          · rw [h1]
            exact treeFromList_all_rebuildable md5hex reg hne treedef g tree treedef2 g1
              (fun ents he e hee => hWF (rtype, treedef) (by simp) ents he e hee) htr
          · exact ih _ _ _ _ (fun x hx ents he e hee => hWF x (by simp [hx]) ents he e hee)
              hrec item h2

lemma ruleset_rebuild (md5hex : String → String) (reg : Registry) :
    ∀ (rs : RuleSet), (∀ p ∈ rs, pluginRebuildable reg p) →
    ∀ g2 : RuleIdGenerator, ∃ gOut : RuleIdGenerator,
      RuleSet.from_list md5hex reg g2 (RuleSet.to_list rs) =
        some (rs, rs.map RulePlugin.args, gOut) := by
  intro rs
  induction rs with
  | nil => intro _ g2; exact ⟨g2, rfl⟩
  | cons p rest ih =>
    intro hall g2
    have hp := hall p (List.mem_cons_self p rest)
    have hto : RuleSet.to_list (p :: rest) = RulePlugin.to_dict p :: RuleSet.to_list rest := rfl
    rw [hto, RuleSet.from_list, rebuild_inject md5hex reg g2 p hp,
      rebuild_fromDict reg p hp]
    obtain ⟨gOut, hrec⟩ := ih (fun q hq => hall q (List.mem_cons_of_mem p hq))
      (inject_rule_id md5hex g2 (RulePlugin.to_dict p)).1
    simp only [hrec]
    exact ⟨gOut, rfl⟩

lemma tree_rebuild (md5hex : String → String) (reg : Registry) :
    ∀ (rt : RuleTree), (∀ rs ∈ rt, ∀ p ∈ rs, pluginRebuildable reg p) →
    ∀ g2 : RuleIdGenerator, ∃ (gOut : RuleIdGenerator) (out : List (List Entry)),
      RuleTree.from_list md5hex reg g2 (RuleTree.to_list rt) = some (rt, out, gOut) := by
  intro rt
  induction rt with
  | nil => intro _ g2; exact ⟨g2, [], rfl⟩
  | cons rs rest ih =>
    intro hall g2
    have hto : RuleTree.to_list (rs :: rest) = RuleSet.to_list rs :: RuleTree.to_list rest := rfl
    obtain ⟨g3, hset⟩ := ruleset_rebuild md5hex reg rs (fun p hp => hall rs (by simp) p hp) g2
    rw [hto, RuleTree.from_list]
    simp only [hset]
    obtain ⟨gOut, out, hrec⟩ := ih (fun x hx p hp => hall x (by simp [hx]) p hp) g3
    simp only [hrec]
    exact ⟨gOut, rs.map RulePlugin.args :: out, rfl⟩

lemma ofValue_value (rt : RequestType) : RequestType.ofValue rt.value = some rt := by
  cases rt <;> decide

lemma engineCore_rebuild (md5hex : String → String) (reg : Registry) :
    ∀ (m : List (RequestType × RuleTree)),
    (∀ item ∈ m, ∀ rs ∈ item.2, ∀ p ∈ rs, pluginRebuildable reg p) →
    ∀ g2 : RuleIdGenerator,
      ∃ (gOut : RuleIdGenerator) (out : List (String × List (List Entry))),
      fromDictCore md5hex reg g2
          (m.map (fun pr => (pr.1.value, RuleTree.to_list pr.2))) =
        some (m, out, gOut) := by
  intro m
  induction m with
  | nil => intro _ g2; exact ⟨g2, [], rfl⟩
  | cons pr rest ih =>
    intro hall g2
    obtain ⟨rt, tree⟩ := pr
    rw [List.map_cons, fromDictCore, ofValue_value rt]
    obtain ⟨g3, out1, htree⟩ := tree_rebuild md5hex reg tree
      (fun rs hrs p hp => hall (rt, tree) (by simp) rs hrs p hp) g2
    simp only [htree]
    obtain ⟨gOut, out, hrec⟩ := ih (fun x hx rs hrs p hp => hall x (by simp [hx]) rs hrs p hp) g3
    simp only [hrec]
    exact ⟨gOut, (rt.value, out1) :: out, rfl⟩

/-- C9: for a valid configuration (one whose build succeeds; entries are
dicts, so their keys are distinct) and a digest function with nonempty
outputs (md5 hex digests are never empty), building an engine, serializing
it, and building again succeeds and reproduces the very same engine: the
same trees of the same evaluator instances, hence identical decision
behavior on every request and an identical serialization — in particular
identical identifiers for every entry. -/
theorem roundtrip_build_serialize_build (md5hex : String → String) (reg : Registry)
    (info : List (String × List (List Entry))) (eng : RuleEngine)
    (info2 : List (String × List (List Entry)))
    (hne : ∀ s, md5hex s ≠ "")
    (hWF : ∀ item ∈ info, ∀ ents ∈ item.2, ∀ e ∈ ents, ((e.map Prod.fst).Nodup : Prop))
    (h1 : RuleEngine.from_dict md5hex reg info = some (eng, info2)) :
    ∃ (eng2 : RuleEngine) (info3 : List (String × List (List Entry))),
      RuleEngine.from_dict md5hex reg (RuleEngine.to_dict eng) = some (eng2, info3) ∧
      eng2 = eng ∧
      (∀ request : ApprovalRequest,
        RuleEngine.approve_request eng2 request = RuleEngine.approve_request eng request) ∧
      RuleEngine.to_dict eng2 = RuleEngine.to_dict eng := by
  obtain ⟨m⟩ := eng
  rw [RuleEngine.from_dict] at h1
  cases hc : fromDictCore md5hex reg RuleIdGenerator.init info with
  | none => simp [hc] at h1
  | some r =>
    obtain ⟨m2, info3, gOut⟩ := r
    simp only [hc, Option.some.injEq, Prod.mk.injEq] at h1
    have hm : m2 = m := by
      have := h1.1
      simpa [RuleEngine.mk.injEq] using this
    have hall := fromDictCore_all_rebuildable md5hex reg hne info
      RuleIdGenerator.init m2 info3 gOut hWF hc
    rw [hm] at hall
    obtain ⟨gOut2, out, hre⟩ := engineCore_rebuild md5hex reg m hall RuleIdGenerator.init
    refine ⟨⟨m⟩, out, ?_, rfl, fun request => rfl, rfl⟩
    rw [RuleEngine.from_dict]
    have hto : RuleEngine.to_dict ⟨m⟩ =
        m.map (fun pr => (pr.1.value, RuleTree.to_list pr.2)) := rfl
    rw [hto]
    simp only [hre]

/-- Concrete engine produced by building `[("decrypt", [[wEntRule]])]`
with `wHash` and `wReg`. -/
def wEngineBuilt : RuleEngine :=
  ⟨[(RequestType.decrypt,
     [[⟨"r",
        [("param", JVal.num 1), ("rule_id", JVal.str "d41d8cd98f00b204e9800998ecf8427e")],
        fun _ => Verdict.ok (some true)⟩]])]⟩

theorem roundtrip_build_serialize_build_witness :
    ∃ (eng2 : RuleEngine) (info3 : List (String × List (List Entry))),
      RuleEngine.from_dict wHash wReg (RuleEngine.to_dict wEngineBuilt) =
        some (eng2, info3) ∧
      eng2 = wEngineBuilt ∧
      (∀ request : ApprovalRequest,
        RuleEngine.approve_request eng2 request =
          RuleEngine.approve_request wEngineBuilt request) ∧
      RuleEngine.to_dict eng2 = RuleEngine.to_dict wEngineBuilt :=
  roundtrip_build_serialize_build wHash wReg [("decrypt", [[wEntRule]])] wEngineBuilt _
    (fun s => by
      show ("d41d8cd98f00b204e9800998ecf8427e" : String) ≠ ""
      decide)
    (by decide)
    rfl
